import Mathlib

/-!
Verification of the typhoon bencoding decoder (`src/typhoon/src/bencoding.rs`)
and torrent metadata extractor (`src/typhoon/src/core.rs`).

Bytes are modelled as `Nat` (values `0..255`), machine integers as `Int`/`Nat`
with explicit reduction modulo `2 ^ 64` where the Rust `i64`/`usize` arithmetic
wraps (release-profile semantics).  Fallible Rust code returns `Except`-style
results; the one place where the Rust code can abort the process (a slice
index computed from a wrapped `usize` addition in `Lexer::take`) is modelled
by an explicit `panicked` outcome.
-/

namespace Typhoon

/-- Wrapping 64-bit signed arithmetic: reduce an `Int` into `[-2^63, 2^63)`,
as Rust `i64` operations do in release builds. -/
def wrap64 (x : Int) : Int := (x + 2 ^ 63) % 2 ^ 64 - 2 ^ 63

/-- The Rust cast `i as usize` for `i : i64`: reinterpret modulo `2 ^ 64`. -/
def toUsize (i : Int) : Nat := (i % 2 ^ 64).toNat

/-- `BencodingError(String)` from `bencoding.rs`. -/
structure BencodingError where
  msg : String
  deriving DecidableEq

/-- The `Bencoding` enum from `bencoding.rs`.  `Box<[u8]>` becomes `List Nat`;
the `HashMap<Box<[u8]>, Bencoding>` becomes an association list whose
operations (`lookupKV`, `insertKV`) mirror `HashMap::get` / `HashMap::insert`. -/
inductive Bencoding where
  | int : Int → Bencoding
  | byteString : List Nat → Bencoding
  | list : List Bencoding → Bencoding
  | dict : List (List Nat × Bencoding) → Bencoding

mutual

/-- Boolean equality on `Bencoding` trees (the nested inductive prevents a
derived instance). -/
def beqB : Bencoding → Bencoding → Bool
  | .int a, .int b => a == b
  | .byteString a, .byteString b => a == b
  | .list xs, .list ys => beqBL xs ys
  | .dict xs, .dict ys => beqBD xs ys
  | _, _ => false

/-- Boolean equality on lists of `Bencoding` trees. -/
def beqBL : List Bencoding → List Bencoding → Bool
  | [], [] => true
  | x :: xs, y :: ys => beqB x y && beqBL xs ys
  | _, _ => false

/-- Boolean equality on association lists of `Bencoding` trees. -/
def beqBD : List (List Nat × Bencoding) → List (List Nat × Bencoding) → Bool
  | [], [] => true
  | (k, v) :: xs, (k2, v2) :: ys => k == k2 && (beqB v v2 && beqBD xs ys)
  | _, _ => false

end

mutual

/-- `beqB` decides equality of `Bencoding` trees. -/
def beqB_eq : ∀ a b : Bencoding, beqB a b = true ↔ a = b
  | .int _, .int _ => by simp [beqB]
  | .int _, .byteString _ => by simp [beqB]
  | .int _, .list _ => by simp [beqB]
  | .int _, .dict _ => by simp [beqB]
  | .byteString _, .int _ => by simp [beqB]
  | .byteString _, .byteString _ => by simp [beqB]
  | .byteString _, .list _ => by simp [beqB]
  | .byteString _, .dict _ => by simp [beqB]
  | .list _, .int _ => by simp [beqB]
  | .list _, .byteString _ => by simp [beqB]
  | .list xs, .list ys => by simp [beqB, beqBL_eq xs ys]
  | .list _, .dict _ => by simp [beqB]
  | .dict _, .int _ => by simp [beqB]
  | .dict _, .byteString _ => by simp [beqB]
  | .dict _, .list _ => by simp [beqB]
  | .dict xs, .dict ys => by simp [beqB, beqBD_eq xs ys]

/-- `beqBL` decides equality of `Bencoding` lists. -/
def beqBL_eq : ∀ xs ys : List Bencoding, beqBL xs ys = true ↔ xs = ys
  | [], [] => by simp [beqBL]
  | [], _ :: _ => by simp [beqBL]
  | _ :: _, [] => by simp [beqBL]
  | x :: xs, y :: ys => by
      simp [beqBL, Bool.and_eq_true, beqB_eq x y, beqBL_eq xs ys]

/-- `beqBD` decides equality of `Bencoding` association lists. -/
def beqBD_eq : ∀ xs ys : List (List Nat × Bencoding), beqBD xs ys = true ↔ xs = ys
  | [], [] => by simp [beqBD]
  | [], _ :: _ => by simp [beqBD]
  | _ :: _, [] => by simp [beqBD]
  | (k, v) :: xs, (k2, v2) :: ys => by
      simp [beqBD, Bool.and_eq_true, beqB_eq v v2, beqBD_eq xs ys, and_assoc]

end

instance : DecidableEq Bencoding := fun a b => decidable_of_iff _ (beqB_eq a b)

/-- `HashMap::get`: the (unique under `insertKV`) binding for a key. -/
def lookupKV (m : List (List Nat × Bencoding)) (k : List Nat) : Option Bencoding :=
  match m with
  | [] => none
  | (k', v) :: rest => if k' = k then some v else lookupKV rest k

/-- `HashMap::insert`: replace the binding in place if the key is present,
otherwise add a new binding. -/
def insertKV (m : List (List Nat × Bencoding)) (k : List Nat) (v : Bencoding) :
    List (List Nat × Bencoding) :=
  match m with
  | [] => [(k, v)]
  | (k', v') :: rest => if k' = k then (k', v) :: rest else (k', v') :: insertKV rest k v

/-- Outcome of running a piece of the parser: a value, a `BencodingError`,
a process abort (Rust panic), or exhaustion of the recursion fuel used to
express the mutual recursion (never reached for the fuel `decode` supplies). -/
inductive PResult (α : Type) where
  | ok : α → PResult α
  | error : BencodingError → PResult α
  | panicked : String → PResult α
  | fuelOut : PResult α
  deriving DecidableEq

/-- The `Lexer` from `bencoding.rs`.  The Rust struct stores the full input
and a cursor `pos`; we store the not-yet-consumed suffix `rem` (which is
`input[pos..]`) together with `pos` itself, which `take` still needs for its
`pos + count` overflow behaviour. -/
structure Lexer where
  rem : List Nat
  pos : Nat
  deriving DecidableEq

/-- `Lexer::next` at a position where `peek` succeeded: advance the cursor. -/
def advance (lx : Lexer) : Lexer := ⟨lx.rem.tail, lx.pos + 1⟩

/-- `Lexer::expect`: consume the next byte if it equals `target`. -/
def expectB (target : Nat) (lx : Lexer) : PResult Unit × Lexer :=
  match lx.rem.head? with
  | some good =>
      if good = target then (.ok (), advance lx)
      else (.error ⟨"Expected " ++ toString target ++ " but found " ++ toString good⟩, lx)
  | none => (.error ⟨"Expected " ++ toString target ++ " but reached the end of input"⟩, lx)

/-- `Lexer::take` fused with the `ok_or` of its only caller (`bytestring`).
Rust computes `top = self.pos + count`; when that addition wraps past
`usize::MAX` the program aborts (overflow panic in debug builds, and in
release builds the wrapped `top` is both `≤ len` and `< pos`, so the slice
`input[pos..top]` panics).  Otherwise `top > len` is exactly
`count > rem.length`. -/
def takeL (count : Nat) (lx : Lexer) : PResult (List Nat) × Lexer :=
  if 2 ^ 64 ≤ lx.pos + count then
    (.panicked ("slice index starts at " ++ toString lx.pos), lx)
  else if lx.rem.length < count then
    (.error ⟨"Unable to take " ++ toString count ++ " bytes from input"⟩, lx)
  else
    (.ok (lx.rem.take count), ⟨lx.rem.drop count, lx.pos + count⟩)

/-- `as_digit` from `bencoding.rs`. -/
def as_digit (chr : Nat) : Option Int :=
  if 48 ≤ chr ∧ chr ≤ 57 then some ((chr : Int) - 48) else none

/-- The `while let Some(&chr) = lexer.peek()` loop of `int_digits`:
accumulate `acc = 10 * acc + digit` (wrapping `i64`) while digits remain. -/
def intDigitsLoop : Int → List Nat → Nat → Int × Lexer
  | acc, [], pos => (acc, ⟨[], pos⟩)
  | acc, c :: rest, pos =>
      match as_digit c with
      | none => (acc, ⟨c :: rest, pos⟩)
      | some d => intDigitsLoop (wrap64 (10 * acc + d)) rest (pos + 1)

/-- `int_digits` from `bencoding.rs`. -/
def int_digits (lx : Lexer) : PResult Int × Lexer :=
  match lx.rem with
  | [] => (.error ⟨"Tried to parse integer from empty input"⟩, lx)
  | c :: rest =>
      match as_digit c with
      | none => (.error ⟨"Tried to parse integer without any valid digits"⟩, lx)
      | some d =>
          let r := intDigitsLoop d rest (lx.pos + 1)
          (.ok r.1, r.2)

/-- `int` from `bencoding.rs` (the part after the leading `'i'` was consumed).
`negate * int` is `i64` multiplication, hence wrapped. -/
def intP (lx : Lexer) : PResult Bencoding × Lexer :=
  let s : Int × Lexer :=
    if lx.rem.head? = some 45 then (-1, advance lx) else (1, lx)
  match int_digits s.2 with
  | (.ok i, lx₂) =>
      match expectB 101 lx₂ with
      | (.ok _, lx₃) => (.ok (.int (wrap64 (s.1 * i))), lx₃)
      | (.error e, lx₃) => (.error e, lx₃)
      | (.panicked m, lx₃) => (.panicked m, lx₃)
      | (.fuelOut, lx₃) => (.fuelOut, lx₃)
  | (.error e, lx₂) => (.error e, lx₂)
  | (.panicked m, lx₂) => (.panicked m, lx₂)
  | (.fuelOut, lx₂) => (.fuelOut, lx₂)

/-- `bytestring` from `bencoding.rs`: `digits ':' <count bytes>`.
The parsed length is cast `as usize`. -/
def bytestringP (lx : Lexer) : PResult (List Nat) × Lexer :=
  match int_digits lx with
  | (.ok i, lx₁) =>
      match expectB 58 lx₁ with
      | (.ok _, lx₂) => takeL (toUsize i) lx₂
      | (.error e, lx₂) => (.error e, lx₂)
      | (.panicked m, lx₂) => (.panicked m, lx₂)
      | (.fuelOut, lx₂) => (.fuelOut, lx₂)
  | (.error e, lx₁) => (.error e, lx₁)
  | (.panicked m, lx₁) => (.panicked m, lx₁)
  | (.fuelOut, lx₁) => (.fuelOut, lx₁)

mutual

/-- `root` from `bencoding.rs`: dispatch on the lead byte
(`'i' = 105`, `'l' = 108`, `'d' = 100`, ASCII digit, other). -/
def root : Nat → Lexer → PResult Bencoding × Lexer
  | 0, lx => (.fuelOut, lx)
  | f + 1, lx =>
      match lx.rem.head? with
      | none => (.error ⟨"Tried to parse bencoded data from empty input"⟩, lx)
      | some 105 => intP (advance lx)
      | some 108 => listP f (advance lx)
      | some 100 => dictP f (advance lx)
      | some c =>
          match as_digit c with
          | some _ =>
              match bytestringP lx with
              | (.ok s, lx') => (.ok (.byteString s), lx')
              | (.error e, lx') => (.error e, lx')
              | (.panicked m, lx') => (.panicked m, lx')
              | (.fuelOut, lx') => (.fuelOut, lx')
          | none => (.error ⟨"Unknown type of element " ++ toString c⟩, lx)

/-- `list` from `bencoding.rs`: run the element loop, then `expect(b'e')`. -/
def listP : Nat → Lexer → PResult Bencoding × Lexer
  | 0, lx => (.fuelOut, lx)
  | f + 1, lx =>
      match listLoopP f lx [] with
      | (.ok items, lx') =>
          match expectB 101 lx' with
          | (.ok _, lx'') => (.ok (.list items), lx'')
          | (.error e, lx'') => (.error e, lx'')
          | (.panicked m, lx'') => (.panicked m, lx'')
          | (.fuelOut, lx'') => (.fuelOut, lx'')
      | (.error e, lx') => (.error e, lx')
      | (.panicked m, lx') => (.panicked m, lx')
      | (.fuelOut, lx') => (.fuelOut, lx')

/-- The `while let Ok(item) = root(lexer)` loop of `list`: a failed element
parse is swallowed and ends the loop, keeping the lexer state the failed
attempt left behind. -/
def listLoopP : Nat → Lexer → List Bencoding → PResult (List Bencoding) × Lexer
  | 0, lx, _ => (.fuelOut, lx)
  | f + 1, lx, acc =>
      match root f lx with
      | (.ok item, lx') => listLoopP f lx' (acc ++ [item])
      | (.error _, lx') => (.ok acc, lx')
      | (.panicked m, lx') => (.panicked m, lx')
      | (.fuelOut, lx') => (.fuelOut, lx')

/-- `dict` from `bencoding.rs`: run the pair loop, then `expect(b'e')`. -/
def dictP : Nat → Lexer → PResult Bencoding × Lexer
  | 0, lx => (.fuelOut, lx)
  | f + 1, lx =>
      match dictLoopP f lx [] with
      | (.ok kvs, lx') =>
          match expectB 101 lx' with
          | (.ok _, lx'') => (.ok (.dict kvs), lx'')
          | (.error e, lx'') => (.error e, lx'')
          | (.panicked m, lx'') => (.panicked m, lx'')
          | (.fuelOut, lx'') => (.fuelOut, lx'')
      | (.error e, lx') => (.error e, lx')
      | (.panicked m, lx') => (.panicked m, lx')
      | (.fuelOut, lx') => (.fuelOut, lx')

/-- The `while let Ok(key) = bytestring(lexer)` loop of `dict`: a failed key
parse is swallowed and ends the loop, but a failed value parse propagates
(the `?` on `root(lexer)`). -/
def dictLoopP : Nat → Lexer → List (List Nat × Bencoding) →
    PResult (List (List Nat × Bencoding)) × Lexer
  | 0, lx, _ => (.fuelOut, lx)
  | f + 1, lx, acc =>
      match bytestringP lx with
      | (.error _, lx') => (.ok acc, lx')
      | (.panicked m, lx') => (.panicked m, lx')
      | (.fuelOut, lx') => (.fuelOut, lx')
      | (.ok key, lx') =>
          match root f lx' with
          | (.ok item, lx'') => dictLoopP f lx'' (insertKV acc key item)
          | (.error e, lx'') => (.error e, lx'')
          | (.panicked m, lx'') => (.panicked m, lx'')
          | (.fuelOut, lx'') => (.fuelOut, lx'')

end

/-- `Bencoding::parse`: run `root` on a fresh lexer.  The fuel
`4 * input.length + 8` exceeds the recursion depth any run can reach
(every recursive step is paid for by input bytes). -/
def decode (input : List Nat) : PResult Bencoding :=
  (root (4 * input.length + 8) ⟨input, 0⟩).1

/-! ### The extractor (`core.rs`) -/

instance {ε α : Type} [DecidableEq ε] [DecidableEq α] : DecidableEq (Except ε α) :=
  fun a b =>
    match a, b with
    | .ok x, .ok y => decidable_of_iff (x = y) (by simp)
    | .error x, .error y => decidable_of_iff (x = y) (by simp)
    | .ok _, .error _ => .isFalse (by simp)
    | .error _, .ok _ => .isFalse (by simp)

/-- The bytes of an ASCII/Unicode string, for writing the `&'static str`
dictionary keys of `core.rs`. -/
def strBytes (s : String) : List Nat := s.data.map Char.toNat

/-- `TryFromBencodingError` from `core.rs`.  The `Utf8Error` payload of
`NotUTF8` carries only diagnostic detail and is dropped; `&'b Bencoding`
references become values. -/
inductive TryFromBencodingError where
  | expectedInt : Bencoding → TryFromBencodingError
  | expectedByteString : Bencoding → TryFromBencodingError
  | expectedList : Bencoding → TryFromBencodingError
  | expectedDict : Bencoding → TryFromBencodingError
  | exceedsSystemTime : Int → TryFromBencodingError
  | notUTF8 : Bencoding → TryFromBencodingError
  | missingKey : Bencoding → List Nat → TryFromBencodingError
  deriving DecidableEq

/-- `extract_int` from `core.rs`. -/
def extract_int (bencoding : Bencoding) : Except TryFromBencodingError Int :=
  match bencoding with
  | .int i => .ok i
  | _ => .error (.expectedInt bencoding)

/-- `extract_bytes` from `core.rs`. -/
def extract_bytes (bencoding : Bencoding) : Except TryFromBencodingError (List Nat) :=
  match bencoding with
  | .byteString bx => .ok bx
  | _ => .error (.expectedByteString bencoding)

/-- `str::from_utf8` validation: decode a byte sequence as UTF-8 code points
(strict ranges, surrogates and overlong forms rejected), or fail.
Strings are modelled as their code-point sequences. -/
def utf8Decode : List Nat → Option (List Nat)
  | [] => some []
  | b :: rest =>
      if b < 0x80 then
        (utf8Decode rest).map (fun s => b :: s)
      else if 0xC2 ≤ b ∧ b ≤ 0xDF then
        match rest with
        | b1 :: rest' =>
            if 0x80 ≤ b1 ∧ b1 ≤ 0xBF then
              (utf8Decode rest').map (fun s => ((b - 0xC0) * 64 + (b1 - 0x80)) :: s)
            else none
        | _ => none
      else if 0xE0 ≤ b ∧ b ≤ 0xEF then
        match rest with
        | b1 :: b2 :: rest' =>
            let lo1 := if b = 0xE0 then 0xA0 else 0x80
            let hi1 := if b = 0xED then 0x9F else 0xBF
            if (lo1 ≤ b1 ∧ b1 ≤ hi1) ∧ (0x80 ≤ b2 ∧ b2 ≤ 0xBF) then
              (utf8Decode rest').map
                (fun s => ((b - 0xE0) * 4096 + (b1 - 0x80) * 64 + (b2 - 0x80)) :: s)
            else none
        | _ => none
      else if 0xF0 ≤ b ∧ b ≤ 0xF4 then
        match rest with
        | b1 :: b2 :: b3 :: rest' =>
            let lo1 := if b = 0xF0 then 0x90 else 0x80
            let hi1 := if b = 0xF4 then 0x8F else 0xBF
            if (lo1 ≤ b1 ∧ b1 ≤ hi1) ∧ (0x80 ≤ b2 ∧ b2 ≤ 0xBF) ∧ (0x80 ≤ b3 ∧ b3 ≤ 0xBF) then
              (utf8Decode rest').map
                (fun s =>
                  ((b - 0xF0) * 262144 + (b1 - 0x80) * 4096 + (b2 - 0x80) * 64 + (b3 - 0x80)) :: s)
            else none
        | _ => none
      else none

/-- `extract_string` from `core.rs`: bytes that must be valid UTF-8. -/
def extract_string (bencoding : Bencoding) : Except TryFromBencodingError (List Nat) :=
  match extract_bytes bencoding with
  | .error e => .error e
  | .ok bytes =>
      match utf8Decode bytes with
      | some s => .ok s
      | none => .error (.notUTF8 bencoding)

/-- `extract_key` from `core.rs`: `map.get(key)` on a dictionary. -/
def extract_key (bencoding : Bencoding) (key : List Nat) :
    Except TryFromBencodingError Bencoding :=
  match bencoding with
  | .dict map =>
      match lookupKV map key with
      | some v => .ok v
      | none => .error (.missingKey bencoding key)
  | _ => .error (.expectedDict bencoding)

/-- `extract_list` from `core.rs`. -/
def extract_list (bencoding : Bencoding) : Except TryFromBencodingError (List Bencoding) :=
  match bencoding with
  | .list bx => .ok bx
  | _ => .error (.expectedList bencoding)

/-- The largest seconds-after-epoch value `std::time::SystemTime` can
represent: `UNIX_EPOCH.checked_add(Duration::from_secs(u))` succeeds exactly
for `u ≤ i64::MAX` (Unix `timespec` holds an `i64` seconds field; the
theorems below only need that this bound is below `2 ^ 63`). -/
def systemTimeMaxSecs : Nat := 2 ^ 63 - 1

/-- `extract_system_time` from `core.rs`: `Duration::from_secs(seconds as u64)`
added to the epoch with `checked_add`.  A `SystemTime` is modelled as its
seconds-after-epoch count. -/
def extract_system_time (bencoding : Bencoding) : Except TryFromBencodingError Nat :=
  match extract_int bencoding with
  | .error e => .error e
  | .ok seconds =>
      let from_beginning := toUsize seconds
      if from_beginning ≤ systemTimeMaxSecs then .ok from_beginning
      else .error (.exceedsSystemTime seconds)

/-- `TrackerAddr` from `core.rs`; the payloads are strings modelled as
code-point sequences. -/
inductive TrackerAddr where
  | udp : List Nat → TrackerAddr
  | http : List Nat → TrackerAddr
  | unknown : List Nat → TrackerAddr
  deriving DecidableEq

/-- If `pat` is a prefix of `s`, the remainder of `s` after it. -/
def stripPre : List Nat → List Nat → Option (List Nat)
  | [], s => some s
  | _ :: _, [] => none
  | p :: ps, c :: cs => if c = p then stripPre ps cs else none

/-- Everything after the first occurrence of `pat` in `s`
(`s.splitn(2, pat).skip(1).next()` for a nonempty pattern). -/
def findAfter (pat : List Nat) : List Nat → Option (List Nat)
  | [] =>
      match stripPre pat [] with
      | some rest => some rest
      | none => none
  | c :: cs =>
      match stripPre pat (c :: cs) with
      | some rest => some rest
      | none => findAfter pat cs

/-- `s.starts_with(pat)`. -/
def hasPre (pat s : List Nat) : Bool := (stripPre pat s).isSome

/-- The code points of the pattern `udp://`. -/
def udpPat : List Nat := strBytes ("udp://")

/-- The code points of the pattern `http://`. -/
def httpPat : List Nat := strBytes ("http://")

/-- The code points of the pattern `https://`. -/
def httpsPat : List Nat := strBytes ("https://")

/-- `impl From<&str> for TrackerAddr` from `core.rs`: `udp://` substring
first, then `http://` / `https://` prefixes, else `Unknown`. -/
def trackerAddrFrom (string : List Nat) : TrackerAddr :=
  match findAfter udpPat string with
  | some udp => .udp udp
  | none =>
      if hasPre httpPat string || hasPre httpsPat string then .http string
      else .unknown string

/-- `impl TryFrom<&Bencoding> for TrackerAddr`. -/
def trackerTryFrom (bencoding : Bencoding) : Except TryFromBencodingError TrackerAddr :=
  match extract_string bencoding with
  | .ok s => .ok (trackerAddrFrom s)
  | .error e => .error e

/-- `ParseTorrentError` from `core.rs`. -/
inductive ParseTorrentError where
  | bencoding : TryFromBencodingError → ParseTorrentError
  | badHashLength : Nat → ParseTorrentError
  deriving DecidableEq

/-- `FileInfo` from `core.rs`; the `PathBuf` is modelled as the code points
of the path text. -/
structure FileInfo where
  name : List Nat
  length : Nat
  deriving DecidableEq

/-- `Torrent` from `core.rs`.  `private` is a Lean keyword, hence
`privateFlag`; tracker priorities are `u8` values modelled as `Nat` below
`256`; piece hashes are their 20-byte chunks. -/
structure Torrent where
  trackers : List (Nat × TrackerAddr)
  creation : Option Nat
  comment : Option (List Nat)
  created_by : Option (List Nat)
  privateFlag : Bool
  piece_length : Nat
  piece_hashes : List (List Nat)
  files : List FileInfo
  deriving DecidableEq

/-- The key `"announce-list"`. -/
def alKey : List Nat := strBytes ("announce-list")

/-- The key `"announce"` (named by the spec; the code never reads it). -/
def announceKey : List Nat := strBytes ("announce")

/-- The key `"creation date"`. -/
def creationKey : List Nat := strBytes ("creation date")

/-- The key `"comment"`. -/
def commentKey : List Nat := strBytes ("comment")

/-- The key `"created by"`. -/
def createdByKey : List Nat := strBytes ("created by")

/-- The key `"info"`. -/
def infoKey : List Nat := strBytes ("info")

/-- The key `"private"`. -/
def privateKey : List Nat := strBytes ("private")

/-- The key `"piece length"`. -/
def pieceLengthKey : List Nat := strBytes ("piece length")

/-- The key `"pieces"`. -/
def piecesKey : List Nat := strBytes ("pieces")

/-- The key `"name"`. -/
def nameKey : List Nat := strBytes ("name")

/-- The key `"length"`. -/
def lengthKey : List Nat := strBytes ("length")

/-- The key `"files"`. -/
def filesKey : List Nat := strBytes ("files")

/-- The key `"path"`. -/
def pathKey : List Nat := strBytes ("path")

/-- The inner `for tracker in tier_list` loop of `extract_trackers`:
push `(index as u8, TrackerAddr::try_from(tracker)?)` for each tracker.
`index as u8` is the truncating cast, i.e. `index % 256`. -/
def trackersInner : List Bencoding → Nat → List (Nat × TrackerAddr) →
    Except ParseTorrentError (List (Nat × TrackerAddr))
  | [], _, acc => .ok acc
  | b :: bs, index, acc =>
      match trackerTryFrom b with
      | .error e => .error (.bencoding e)
      | .ok ta => trackersInner bs index (acc ++ [(index % 256, ta)])

/-- The outer `for (index, tier) in tiers.iter().enumerate()` loop of
`extract_trackers`. -/
def trackersTiers : List Bencoding → Nat → List (Nat × TrackerAddr) →
    Except ParseTorrentError (List (Nat × TrackerAddr))
  | [], _, acc => .ok acc
  | t :: ts, index, acc =>
      match extract_list t with
      | .error e => .error (.bencoding e)
      | .ok tier_list =>
          match trackersInner tier_list index acc with
          | .error e => .error e
          | .ok acc' => trackersTiers ts (index + 1) acc'

/-- `extract_trackers` from `core.rs`.  Note that when `"announce-list"`
cannot be fetched, the code runs `TrackerAddr::try_from(bencoding)` on the
*whole* top-level value, not on an `"announce"` entry. -/
def extract_trackers (bencoding : Bencoding) :
    Except ParseTorrentError (List (Nat × TrackerAddr)) :=
  match extract_key bencoding alKey with
  | .error _ =>
      match trackerTryFrom bencoding with
      | .error e => .error (.bencoding e)
      | .ok tracker => .ok [(0, tracker)]
  | .ok inner =>
      match extract_list inner with
      | .error e => .error (.bencoding e)
      | .ok tiers => trackersTiers tiers 0 []

/-- `piece_bytes.chunks_exact(20)`: the consecutive complete 20-byte chunks,
in order. -/
def chunk20 : List Nat → List (List Nat)
  | a1 :: a2 :: a3 :: a4 :: a5 :: a6 :: a7 :: a8 :: a9 :: a10 ::
    a11 :: a12 :: a13 :: a14 :: a15 :: a16 :: a17 :: a18 :: a19 :: a20 :: rest =>
      [a1, a2, a3, a4, a5, a6, a7, a8, a9, a10,
       a11, a12, a13, a14, a15, a16, a17, a18, a19, a20] :: chunk20 rest
  | _ => []

/-- `extract_piece_hashes` from `core.rs`. -/
def extract_piece_hashes (info : Bencoding) :
    Except ParseTorrentError (List (List Nat)) :=
  match extract_key info piecesKey with
  | .error e => .error (.bencoding e)
  | .ok pb =>
      match extract_bytes pb with
      | .error e => .error (.bencoding e)
      | .ok piece_bytes =>
          if piece_bytes.length % 20 ≠ 0 then
            .error (.badHashLength piece_bytes.length)
          else
            .ok (chunk20 piece_bytes)

/-- `std::path::PathBuf::push` on Unix for textual paths: an absolute path
replaces the base, otherwise the component is appended after a `/`
separator (`47`). -/
def pathPush (base p : List Nat) : List Nat :=
  if p.head? = some 47 then p
  else if base = [] then p
  else base ++ 47 :: p

/-- The `for file in files` loop of `extract_files`. -/
def filesLoop (dir : List Nat) : List Bencoding → List FileInfo →
    Except TryFromBencodingError (List FileInfo)
  | [], acc => .ok acc
  | file :: rest, acc =>
      match extract_key file lengthKey with
      | .error e => .error e
      | .ok lv =>
          match extract_int lv with
          | .error e => .error e
          | .ok length =>
              match extract_key file pathKey with
              | .error e => .error e
              | .ok pv =>
                  match extract_string pv with
                  | .error e => .error e
                  | .ok path =>
                      filesLoop dir rest (acc ++ [⟨pathPush dir path, toUsize length⟩])

/-- `extract_files` from `core.rs`: single-file mode when `"files"` is
absent, multi-file mode otherwise. -/
def extract_files (info : Bencoding) : Except ParseTorrentError (List FileInfo) :=
  match extract_key info filesKey with
  | .error _ =>
      match extract_key info nameKey with
      | .error e => .error (.bencoding e)
      | .ok nv =>
          match extract_string nv with
          | .error e => .error (.bencoding e)
          | .ok name =>
              match extract_key info lengthKey with
              | .error e => .error (.bencoding e)
              | .ok lv =>
                  match extract_int lv with
                  | .error e => .error (.bencoding e)
                  | .ok length => .ok [⟨name, toUsize length⟩]
  | .ok inner =>
      match extract_key info nameKey with
      | .error e => .error (.bencoding e)
      | .ok nv =>
          match extract_string nv with
          | .error e => .error (.bencoding e)
          | .ok dir =>
              match extract_list inner with
              | .error e => .error (.bencoding e)
              | .ok files =>
                  match filesLoop dir files [] with
                  | .error e => .error (.bencoding e)
                  | .ok fis => .ok fis

/-- `Option<Result<..>>::transpose`, as used for the optional keys of
`Torrent::try_from`. -/
def transposeOpt : Option (Except TryFromBencodingError α) →
    Except TryFromBencodingError (Option α)
  | none => .ok none
  | some (.ok a) => .ok (some a)
  | some (.error e) => .error e

/-- `impl TryFrom<&Bencoding> for Torrent` from `core.rs`. -/
def Torrent.try_from (bencoding : Bencoding) : Except ParseTorrentError Torrent :=
  match extract_trackers bencoding with
  | .error e => .error e
  | .ok trackers =>
  match transposeOpt (((extract_key bencoding creationKey).toOption).map extract_system_time) with
  | .error e => .error (.bencoding e)
  | .ok creation =>
  match transposeOpt (((extract_key bencoding commentKey).toOption).map extract_string) with
  | .error e => .error (.bencoding e)
  | .ok comment =>
  match transposeOpt (((extract_key bencoding createdByKey).toOption).map extract_string) with
  | .error e => .error (.bencoding e)
  | .ok created_by =>
  match extract_key bencoding infoKey with
  | .error e => .error (.bencoding e)
  | .ok info =>
  match transposeOpt (((extract_key info privateKey).toOption).map extract_int) with
  | .error e => .error (.bencoding e)
  | .ok private_option =>
  let privateFlag := (private_option.map (fun x => x == 1)).getD false
  match extract_key info pieceLengthKey with
  | .error e => .error (.bencoding e)
  | .ok plv =>
  match extract_int plv with
  | .error e => .error (.bencoding e)
  | .ok pl =>
  let piece_length := toUsize pl
  match extract_piece_hashes info with
  | .error e => .error e
  | .ok piece_hashes =>
  match extract_files info with
  | .error e => .error e
  | .ok files =>
    .ok ⟨trackers, creation, comment, created_by, privateFlag, piece_length,
      piece_hashes, files⟩

/-! ### Specification-side definitions used to state the claims -/

/-- Decimal digits of `n`, most significant first (helper for `digitsM`,
fuelled to keep the definition kernel-reducible; the fuel `n` always
suffices). -/
def digitsAux : Nat → Nat → List Nat
  | 0, _ => []
  | fuel + 1, n => if n = 0 then [] else digitsAux fuel (n / 10) ++ [n % 10]

/-- Decimal digits of `n`, most significant first; `[0]` for `0`. -/
def digitsM (n : Nat) : List Nat := if n = 0 then [0] else digitsAux n n

/-- The ASCII bytes of the standard decimal rendering of `n`
(no sign, no leading zeros, `"0"` for zero). -/
def decRep (n : Nat) : List Nat := (digitsM n).map (fun d => d + 48)

/-- The byte encoding of the grammar's `integer` production for a
nonnegative value: `'i' digits 'e'`. -/
def intChunk (n : Nat) : List Nat := 105 :: decRep n ++ [101]

/-- The byte encoding of the `integer` production for a negated value:
`'i' '-' digits 'e'`. -/
def negIntChunk (n : Nat) : List Nat := 105 :: 45 :: decRep n ++ [101]

/-- The byte encoding of the `byte-string` production for content `k`:
`digits ':' k` where the digits render `k.length`. -/
def strChunk (k : List Nat) : List Nat := decRep k.length ++ 58 :: k

/-- `chunk` is a `value` production whose parse yields `v`: from any
position, on `chunk` followed by anything, `root` (with fuel at least
`4 * chunk.length`) succeeds with `v` and consumes exactly `chunk`. -/
def ParsesVal (chunk : List Nat) (v : Bencoding) : Prop :=
  ∀ f p rest, 4 * chunk.length ≤ f →
    root f ⟨chunk ++ rest, p⟩ = (.ok v, ⟨rest, p + chunk.length⟩)

/-- One `byte-string value` pair of the dictionary production: the key
bytes, the value's chunk, and the value it parses to. -/
def pairChunk (pr : List Nat × List Nat × Bencoding) : List Nat :=
  strChunk pr.1 ++ pr.2.1

/-- The byte encoding of the dictionary production
`'d' (byte-string value)* 'e'` for the given pairs. -/
def dictInput (pairs : List (List Nat × List Nat × Bencoding)) : List Nat :=
  100 :: (pairs.map pairChunk).flatten ++ [101]

/-- The map obtained by inserting every pair in input order
(`HashMap` semantics: last write for a duplicate key wins). -/
def dictVal (pairs : List (List Nat × List Nat × Bencoding)) :
    List (List Nat × Bencoding) :=
  pairs.foldl (fun m pr => insertKV m pr.1 pr.2.2) []

/-- The value of the last (latest) occurrence of key `k` among the pairs. -/
def lastVal (pairs : List (List Nat × List Nat × Bencoding)) (k : List Nat) :
    Option Bencoding :=
  (pairs.reverse.find? (fun pr => pr.1 == k)).map (fun pr => pr.2.2)

/-- `pat` occurs as a contiguous substring of `s`. -/
def occursIn (pat s : List Nat) : Prop := ∃ pre post, s = pre ++ pat ++ post

/-- Boolean substring test (proved equivalent to `occursIn` below). -/
def subOccursB (pat : List Nat) : List Nat → Bool
  | [] => hasPre pat []
  | c :: cs => hasPre pat (c :: cs) || subOccursB pat cs

/-- A tier bencoding is a list of byte-strings whose UTF-8 decodings are
`strs`, pointwise. -/
def TierOK (t : Bencoding) (strs : List (List Nat)) : Prop :=
  ∃ bsList, t = .list bsList ∧
    List.Forall₂ (fun b s => ∃ bytes, b = .byteString bytes ∧ utf8Decode bytes = some s)
      bsList strs

/-- The tracker list `extract_trackers` builds from the announce-list tiers,
starting at tier index `idx`: each tracker of each tier is tagged with the
tier's index truncated to 8 bits, in order. -/
def specTrackersFrom : Nat → List (List (List Nat)) → List (Nat × TrackerAddr)
  | _, [] => []
  | idx, strs :: tl =>
      strs.map (fun s => (idx % 256, trackerAddrFrom s)) ++ specTrackersFrom (idx + 1) tl

/-- The bytes `"li-ee"`: a list whose inner element parse fails while
leaving the cursor on an `'e'` byte. -/
def c1bytes : List Nat := strBytes ("li-ee")

/-- The bytes `"18446744073709551615:"`: a byte-string header whose declared
length accumulates (wrapping) to `-1 : i64`, i.e. `2 ^ 64 - 1 : usize`. -/
def c4bytes : List Nat := strBytes ("18446744073709551615:")

/-- A top-level dictionary with an `"announce"` key (a valid tracker
byte-string) and no `"announce-list"` key. -/
def c2dict : List (List Nat × Bencoding) :=
  [(announceKey, .byteString (strBytes ("udp://t")))]

/-- A minimal valid info dictionary whose `"piece length"` is `v`. -/
def c3info (v : Int) : List (List Nat × Bencoding) :=
  [(pieceLengthKey, .int v), (piecesKey, .byteString []),
   (nameKey, .byteString (strBytes ("a"))), (lengthKey, .int 1)]

/-- A complete, otherwise-valid torrent dictionary whose `"piece length"`
is `v`. -/
def c3input (v : Int) : Bencoding :=
  .dict [(alKey, .list [.list [.byteString (strBytes ("udp://t"))]]),
         (infoKey, .dict (c3info v))]

/-- The torrent record `Torrent::try_from` produces from `c3input v`. -/
def c3torrent (v : Int) : Torrent :=
  ⟨[(0, .udp (strBytes ("t")))], none, none, none, false, toUsize v, [],
   [⟨strBytes ("a"), 1⟩]⟩

/-! ### General helper lemmas -/

theorem wrap64_eq_self (x : Int) (h1 : -(2 ^ 63) ≤ x) (h2 : x < 2 ^ 63) :
    wrap64 x = x := by
  unfold wrap64; omega

theorem chunk20_ge (l : List Nat) (h : 20 ≤ l.length) :
    chunk20 l = l.take 20 :: chunk20 (l.drop 20) := by
  iterate 20
    obtain _ | ⟨_, l⟩ := l
    · simp at h
  rfl

theorem chunk20_short (l : List Nat) (h : l.length < 20) : chunk20 l = [] := by
  iterate 20
    obtain _ | ⟨_, l⟩ := l
    · rfl
  simp at h
  omega

theorem chunk20_flatten (l : List Nat) (h : l.length % 20 = 0) :
    (chunk20 l).flatten = l := by
  by_cases h20 : l.length < 20
  · have h0 : l.length = 0 := by omega
    have : l = [] := by simpa using h0
    subst this; rfl
  · push_neg at h20
    rw [chunk20_ge l h20]
    simp only [List.flatten_cons]
    rw [chunk20_flatten (l.drop 20) (by simp; omega)]
    exact List.take_append_drop 20 l
termination_by l.length
decreasing_by simp; omega

theorem chunk20_count (l : List Nat) (h : l.length % 20 = 0) :
    (chunk20 l).length = l.length / 20 := by
  by_cases h20 : l.length < 20
  · have h0 : l.length = 0 := by omega
    have : l = [] := by simpa using h0
    subst this; rfl
  · push_neg at h20
    rw [chunk20_ge l h20]
    simp only [List.length_cons]
    rw [chunk20_count (l.drop 20) (by simp; omega)]
    simp only [List.length_drop]
    omega
termination_by l.length
decreasing_by simp; omega

theorem chunk20_mem (l : List Nat) (h : l.length % 20 = 0) :
    ∀ c ∈ chunk20 l, c.length = 20 := by
  by_cases h20 : l.length < 20
  · have h0 : l.length = 0 := by omega
    have : l = [] := by simpa using h0
    subst this; intro c hc; cases hc
  · push_neg at h20
    rw [chunk20_ge l h20]
    intro c hc
    rcases hc with _ | hc
    · simp only [List.length_take]; omega
    · exact chunk20_mem (l.drop 20) (by simp; omega) c (by assumption)
termination_by l.length
decreasing_by simp; omega

/-! ### Claim theorems (part 1) -/

/-- C1: on the bytes `"li-ee"` the inner element parse (`"i-e"`, an integer
with no digits) fails, but `Bencoding::parse` swallows that failure as end
of container and returns the truncated value `List([])` instead of
propagating the error.  This exhibits the code-level violation of the
claimed (and spec-stated) fatal-propagation contract. -/
theorem c1_swallowed_inner_error : decode c1bytes = .ok (.list []) := by decide

set_option maxRecDepth 8192 in
/-- C4: on the bytes `"18446744073709551615:"` the declared byte-string
length wraps to `usize::MAX`, `Lexer::take`'s `pos + count` addition wraps
past `usize::MAX`, and the program aborts (slice `input[21..20]` in release
builds, overflow panic in debug builds) instead of returning a typed decode
error.  This exhibits the code-level violation of the claimed never-panics
property. -/
theorem c4_take_aborts : decode c4bytes = .panicked ("slice index starts at 21") := by
  decide

/-- C2: on a top-level dictionary that has an `"announce"` key (holding a
valid tracker byte-string) and no `"announce-list"` key, `extract_trackers`
never reads `"announce"`: it runs `TrackerAddr::try_from` on the whole
top-level dictionary and fails with `ExpectedByteString` on that dictionary
— neither the claimed single priority-0 tracker nor a `MissingKey` error. -/
theorem c2_fallback_ignores_announce :
    lookupKV c2dict announceKey = some (.byteString (strBytes ("udp://t")))
    ∧ lookupKV c2dict alKey = none
    ∧ extract_trackers (.dict c2dict)
        = .error (.bencoding (.expectedByteString (.dict c2dict))) :=
  ⟨by decide, by decide, by decide⟩

/-- C10: for every in-range negative integer value `s` of the
`"creation date"` key, `extract_system_time` fails with
`ExceedsSystemTime s`: `s as u64` is at least `2 ^ 63`, which exceeds the
representable `SystemTime` range, so no before-epoch timestamp is ever
produced. -/
theorem c10_negative_creation_date (s : Int) (h1 : -(2 ^ 63) ≤ s) (h2 : s < 0) :
    extract_system_time (.int s) = .error (.exceedsSystemTime s) := by
  have hcond : ¬ (toUsize s ≤ systemTimeMaxSecs) := by
    unfold toUsize systemTimeMaxSecs
    omega
  unfold extract_system_time extract_int
  simp [hcond]

/-- Witness for C10 at `s = -1`. -/
theorem c10_negative_creation_date_witness :
    (-(2 ^ 63) ≤ (-1 : Int)) ∧ ((-1 : Int) < 0)
    ∧ extract_system_time (.int (-1)) = .error (.exceedsSystemTime (-1)) :=
  ⟨by decide, by decide, c10_negative_creation_date (-1) (by decide) (by decide)⟩

/-- C6: for every info dictionary whose `"pieces"` key holds a byte-string
`bytes`: if `bytes.length` is not a multiple of 20, `extract_piece_hashes`
fails with `BadHashLength bytes.length`; otherwise it returns the
consecutive 20-byte chunks of `bytes` in order (their concatenation is
`bytes`, each has length 20) and there are `bytes.length / 20` of them. -/
theorem c6_piece_hashes (m : List (List Nat × Bencoding)) (bytes : List Nat)
    (h : lookupKV m piecesKey = some (.byteString bytes)) :
    (bytes.length % 20 ≠ 0 →
      extract_piece_hashes (.dict m) = .error (.badHashLength bytes.length))
    ∧ (bytes.length % 20 = 0 →
      extract_piece_hashes (.dict m) = .ok (chunk20 bytes)
      ∧ (chunk20 bytes).length = bytes.length / 20
      ∧ (chunk20 bytes).flatten = bytes
      ∧ ∀ c ∈ chunk20 bytes, c.length = 20) := by
  have hk : extract_key (.dict m) piecesKey = .ok (.byteString bytes) := by
    simp [extract_key, h]
  constructor
  · intro hmod
    unfold extract_piece_hashes
    rw [hk]
    simp [extract_bytes, hmod]
  · intro hmod
    refine ⟨?_, chunk20_count bytes hmod, chunk20_flatten bytes hmod, chunk20_mem bytes hmod⟩
    unfold extract_piece_hashes
    rw [hk]
    simp [extract_bytes, hmod]

/-- Witness for C6: a 25-byte `"pieces"` string gives `BadHashLength 25`;
a 40-byte one gives its two 20-byte chunks. -/
theorem c6_piece_hashes_witness :
    extract_piece_hashes (.dict [(piecesKey, .byteString (List.replicate 25 0))])
      = .error (.badHashLength 25)
    ∧ extract_piece_hashes (.dict [(piecesKey, .byteString (List.replicate 40 7))])
      = .ok [List.replicate 20 7, List.replicate 20 7] := by
  have h1 := (c6_piece_hashes [(piecesKey, .byteString (List.replicate 25 0))]
    (List.replicate 25 0) (by decide)).1 (by decide)
  have h2 := ((c6_piece_hashes [(piecesKey, .byteString (List.replicate 40 7))]
    (List.replicate 40 7) (by decide)).2 (by decide)).1
  refine ⟨by simpa using h1, ?_⟩
  rw [h2]; decide

/-- C3 counterexample: a complete, otherwise-valid torrent dictionary whose
`"piece length"` value is the integer `0` (which is `≤ 0`) is accepted:
`Torrent::try_from` returns a `Torrent` record (with `piece_length = 0`),
not an error. -/
theorem c3_counterexample :
    lookupKV (c3info 0) pieceLengthKey = some (.int 0)
    ∧ Torrent.try_from (c3input 0) = .ok (c3torrent 0) :=
  ⟨by decide, by decide⟩

/-- C3 amended: `Torrent::try_from` performs no positivity validation of
`"piece length"`: for every in-range integer `v` (including every `v ≤ 0`)
the otherwise-valid input `c3input v` is accepted, with the stored
`piece_length` equal to `v` reduced modulo `2 ^ 64` (so `0` stays `0` and
negative values wrap to huge counts). -/
theorem c3_no_positivity_check (v : Int) (_h1 : -(2 ^ 63) ≤ v) (_h2 : v < 2 ^ 63) :
    Torrent.try_from (c3input v) = .ok (c3torrent v) := rfl

/-- Witness for the amended C3 at `v = -1`: the negative piece length is
accepted and wraps to `2 ^ 64 - 1`. -/
theorem c3_no_positivity_check_witness :
    (-(2 ^ 63) ≤ (-1 : Int)) ∧ ((-1 : Int) < 2 ^ 63)
    ∧ Torrent.try_from (c3input (-1)) = .ok (c3torrent (-1))
    ∧ (c3torrent (-1)).piece_length = 2 ^ 64 - 1 :=
  ⟨by decide, by decide, c3_no_positivity_check (-1) (by decide) (by decide), by decide⟩

/-! ### Decimal digit lemmas and the integer production (C5) -/


theorem digitsAux_lt : ∀ fuel n, ∀ d ∈ digitsAux fuel n, d < 10 := by
  intro fuel
  induction fuel with
  | zero => intro n d hd; simp [digitsAux] at hd
  | succ f ih =>
      intro n d hd
      by_cases hn : n = 0
      · simp [digitsAux, hn] at hd
      · simp only [digitsAux, if_neg hn, List.mem_append, List.mem_singleton] at hd
        rcases hd with hd | hd
        · exact ih _ _ hd
        · subst hd; omega

theorem digitsAux_foldl : ∀ fuel n (a : Nat), n ≤ fuel →
    (digitsAux fuel n).foldl (fun x d => 10 * x + d) a
      = a * 10 ^ (digitsAux fuel n).length + n := by
  intro fuel
  induction fuel with
  | zero => intro n a h; interval_cases n; simp [digitsAux]
  | succ f ih =>
      intro n a h
      by_cases hn : n = 0
      · simp [digitsAux, hn]
      · have hdiv : n / 10 ≤ f := by omega
        simp only [digitsAux, if_neg hn, List.foldl_append, List.length_append,
          List.foldl_cons, List.foldl_nil, List.length_cons, List.length_nil]
        rw [ih (n / 10) a hdiv]
        rw [pow_succ]
        have := Nat.div_add_mod n 10
        ring_nf
        omega

theorem digitsM_lt (n : Nat) : ∀ d ∈ digitsM n, d < 10 := by
  unfold digitsM
  by_cases hn : n = 0
  · simp [hn]
  · simp only [if_neg hn]
    exact digitsAux_lt n n

theorem digitsM_foldl (n : Nat) :
    (digitsM n).foldl (fun x d => 10 * x + d) 0 = n := by
  unfold digitsM
  by_cases hn : n = 0
  · simp [hn]
  · simp only [if_neg hn]
    rw [digitsAux_foldl n n 0 le_rfl]
    simp

theorem digitsM_ne_nil (n : Nat) : digitsM n ≠ [] := by
  unfold digitsM
  by_cases hn : n = 0
  · simp [hn]
  · simp only [if_neg hn]
    cases n with
    | zero => exact absurd rfl hn
    | succ m => simp [digitsAux]

theorem foldl_digits_ge : ∀ (ds : List Nat) (a : Nat),
    a ≤ ds.foldl (fun x d => 10 * x + d) a := by
  intro ds
  induction ds with
  | nil => intro a; simp
  | cons d tl ih =>
      intro a
      simp only [List.foldl_cons]
      exact le_trans (by omega) (ih (10 * a + d))

theorem intDigitsLoop_run : ∀ (ds : List Nat) (a : Nat) (p : Nat) (rest : List Nat),
    (∀ d ∈ ds, d < 10) →
    ds.foldl (fun x d => 10 * x + d) a < 2 ^ 63 →
    (∀ c, rest.head? = some c → as_digit c = none) →
    intDigitsLoop ((a : Nat) : Int) (ds.map (fun d => d + 48) ++ rest) p
      = (((ds.foldl (fun x d => 10 * x + d) a : Nat) : Int), ⟨rest, p + ds.length⟩) := by
  intro ds
  induction ds with
  | nil =>
      intro a p rest _ _ hrest
      simp only [List.map_nil, List.nil_append, List.foldl_nil, List.length_nil, Nat.add_zero]
      cases rest with
      | nil => rfl
      | cons c cs =>
          simp only [intDigitsLoop]
          rw [hrest c rfl]
  | cons d tl ih =>
      intro a p rest hlt hbound hrest
      have hd : d < 10 := hlt d (List.mem_cons_self d tl)
      simp only [List.map_cons, List.cons_append, intDigitsLoop]
      have hdig : as_digit (d + 48) = some (((d + 48 : Nat) : Int) - 48) := by
        unfold as_digit
        rw [if_pos ⟨by omega, by omega⟩]
      rw [hdig]
      have hstep : ((d + 48 : Nat) : Int) - 48 = ((d : Nat) : Int) := by push_cast; ring
      have hcast : 10 * ((a : Nat) : Int) + ((d : Nat) : Int) = (((10 * a + d : Nat) : Nat) : Int) := by
        push_cast; ring
      have hle : 10 * a + d ≤ tl.foldl (fun x d => 10 * x + d) (10 * a + d) :=
        foldl_digits_ge tl (10 * a + d)
      have hb2 : tl.foldl (fun x d => 10 * x + d) (10 * a + d) < 2 ^ 63 := by
        simpa using hbound
      have hwrap : wrap64 (10 * ((a : Nat) : Int) + (((d : Nat) : Int))) = (((10 * a + d : Nat)) : Int) := by
        rw [hcast]
        apply wrap64_eq_self
        · have : (0 : Int) ≤ ((10 * a + d : Nat) : Int) := Int.natCast_nonneg _
          omega
        · have : ((10 * a + d : Nat) : Int) < ((2 ^ 63 : Nat) : Int) := by
            exact_mod_cast lt_of_le_of_lt hle hb2
          simpa using this
      dsimp only
      rw [hstep, hwrap]
      simp only [List.append_eq]
      rw [ih (10 * a + d) (p + 1) rest (fun x hx => hlt x (List.mem_cons_of_mem d hx)) hb2 hrest]
      simp only [List.foldl_cons, List.length_cons]
      have : p + 1 + tl.length = p + (tl.length + 1) := by omega
      rw [this]

theorem int_digits_run (n p : Nat) (rest : List Nat) (hn : n < 2 ^ 63)
    (hrest : ∀ c, rest.head? = some c → as_digit c = none) :
    int_digits ⟨decRep n ++ rest, p⟩
      = (.ok ((n : Nat) : Int), ⟨rest, p + (decRep n).length⟩) := by
  rcases hdm : digitsM n with _ | ⟨d, ds⟩
  · exact absurd hdm (digitsM_ne_nil n)
  have hd : d < 10 := digitsM_lt n d (by rw [hdm]; exact List.mem_cons_self d ds)
  have hds : ∀ x ∈ ds, x < 10 :=
    fun x hx => digitsM_lt n x (by rw [hdm]; exact List.mem_cons_of_mem d hx)
  have hfold : ds.foldl (fun x d => 10 * x + d) d = n := by
    have h0 := digitsM_foldl n
    rw [hdm] at h0
    simpa using h0
  have hdr : decRep n = (d + 48) :: ds.map (fun x => x + 48) := by
    unfold decRep; rw [hdm]; rfl
  rw [hdr]
  simp only [List.cons_append]
  unfold int_digits
  dsimp only
  have hdig : as_digit (d + 48) = some (((d + 48 : Nat) : Int) - 48) := by
    unfold as_digit; rw [if_pos ⟨by omega, by omega⟩]
  rw [hdig]
  dsimp only
  have hstep : ((d + 48 : Nat) : Int) - 48 = ((d : Nat) : Int) := by push_cast; ring
  rw [hstep]
  rw [intDigitsLoop_run ds d (p + 1) rest hds (by rw [hfold]; exact hn) hrest]
  rw [hfold]
  simp only [List.length_cons, List.length_map]
  have : p + 1 + ds.length = p + (ds.length + 1) := by omega
  rw [this]

theorem decRep_head_digit (n : Nat) :
    ∃ d tl, decRep n = (d + 48) :: tl ∧ d < 10 := by
  rcases hdm : digitsM n with _ | ⟨d, ds⟩
  · exact absurd hdm (digitsM_ne_nil n)
  refine ⟨d, ds.map (fun x => x + 48), ?_, digitsM_lt n d (by rw [hdm]; exact List.mem_cons_self d ds)⟩
  unfold decRep; rw [hdm]; rfl

theorem root_int_chunk (f n p : Nat) (rest : List Nat) (hf : 1 ≤ f) (hn : n < 2 ^ 63) :
    root f ⟨intChunk n ++ rest, p⟩
      = (.ok (.int ((n : Nat) : Int)), ⟨rest, p + (intChunk n).length⟩) := by
  obtain ⟨g, rfl⟩ : ∃ g, f = g + 1 := ⟨f - 1, by omega⟩
  have hshape : intChunk n ++ rest = 105 :: (decRep n ++ (101 :: rest)) := by
    unfold intChunk; simp
  rw [hshape]
  show (root (g + 1) ⟨105 :: (decRep n ++ (101 :: rest)), p⟩) = _
  rw [root]
  simp only [List.head?_cons]
  show intP (advance ⟨105 :: (decRep n ++ (101 :: rest)), p⟩) = _
  unfold advance
  simp only [List.tail_cons]
  unfold intP
  obtain ⟨d, tl, hdr, hd⟩ := decRep_head_digit n
  have hhead : ((⟨decRep n ++ (101 :: rest), p + 1⟩ : Lexer).rem.head?) = some (d + 48) := by
    rw [hdr]; rfl
  rw [if_neg (by
    rw [hhead]
    intro hcon
    have h45 := Option.some.inj hcon
    omega)]
  dsimp only
  rw [int_digits_run n (p + 1) (101 :: rest) hn
    (by intro c hc; simp at hc; subst hc; decide)]
  dsimp only
  unfold expectB advance
  simp only [List.head?_cons, List.tail_cons, if_true]
  have hwrap : wrap64 (1 * ((n : Nat) : Int)) = ((n : Nat) : Int) := by
    rw [one_mul]
    apply wrap64_eq_self
    · have h0 : (0 : Int) ≤ ((n : Nat) : Int) := Int.natCast_nonneg _
      omega
    · have hcast : ((n : Nat) : Int) < ((2 ^ 63 : Nat) : Int) := by exact_mod_cast hn
      simpa using hcast
  rw [hwrap]
  have hlen : p + 1 + (decRep n).length + 1 = p + (intChunk n).length := by
    unfold intChunk
    simp only [List.length_cons, List.length_append, List.length_nil]
    omega
  rw [hlen]

theorem root_negint_chunk (f n p : Nat) (rest : List Nat) (hf : 1 ≤ f) (hn : n < 2 ^ 63) :
    root f ⟨negIntChunk n ++ rest, p⟩
      = (.ok (.int (-((n : Nat) : Int))), ⟨rest, p + (negIntChunk n).length⟩) := by
  obtain ⟨g, rfl⟩ : ∃ g, f = g + 1 := ⟨f - 1, by omega⟩
  have hshape : negIntChunk n ++ rest = 105 :: 45 :: (decRep n ++ (101 :: rest)) := by
    unfold negIntChunk; simp
  rw [hshape]
  rw [root]
  simp only [List.head?_cons]
  show intP (advance ⟨105 :: 45 :: (decRep n ++ (101 :: rest)), p⟩) = _
  unfold advance
  simp only [List.tail_cons]
  unfold intP
  rw [if_pos (by rfl)]
  dsimp only
  unfold advance
  simp only [List.tail_cons]
  rw [int_digits_run n (p + 1 + 1) (101 :: rest) hn
    (by intro c hc; simp at hc; subst hc; decide)]
  dsimp only
  unfold expectB advance
  simp only [List.head?_cons, List.tail_cons, if_true]
  have hwrap : wrap64 ((-1) * ((n : Nat) : Int)) = -((n : Nat) : Int) := by
    have hb : ((n : Nat) : Int) < 2 ^ 63 := by
      have hcast : ((n : Nat) : Int) < ((2 ^ 63 : Nat) : Int) := by exact_mod_cast hn
      simpa using hcast
    have h0 : (0 : Int) ≤ ((n : Nat) : Int) := Int.natCast_nonneg _
    rw [neg_one_mul]
    apply wrap64_eq_self <;> omega
  rw [hwrap]
  have hlen : p + 1 + 1 + (decRep n).length + 1 = p + (negIntChunk n).length := by
    unfold negIntChunk
    simp only [List.length_cons, List.length_append, List.length_nil]
    omega
  rw [hlen]

set_option maxRecDepth 16384 in
/-- C5 amended: for `0 ≤ n < 2 ^ 63`, decoding `"i" ++ decimal(n) ++ "e"`
yields `Int(n)`, and for `0 < n < 2 ^ 63`, decoding `"i-" ++ decimal(n) ++ "e"`
yields `Int(-n)`; at `n = 2 ^ 63` the 64-bit accumulator wraps and both
spellings yield `Int(-2^63)`; an empty digit sequence between `'i'` and
`'e'` is an error; leading zeros are accepted and folded numerically. -/
theorem c5_amended :
    (∀ n : Nat, n < 2 ^ 63 → decode (intChunk n) = .ok (.int n))
    ∧ (∀ n : Nat, 0 < n → n < 2 ^ 63 → decode (negIntChunk n) = .ok (.int (-(n : Int))))
    ∧ decode (intChunk (2 ^ 63)) = .ok (.int (-(2 ^ 63)))
    ∧ decode (negIntChunk (2 ^ 63)) = .ok (.int (-(2 ^ 63)))
    ∧ decode (strBytes ("ie")) = .error ⟨"Tried to parse integer without any valid digits"⟩
    ∧ decode (strBytes ("i007e")) = .ok (.int 7) := by
  refine ⟨?_, ?_, by decide, by decide, by decide, by decide⟩
  · intro n hn
    unfold decode
    have h := root_int_chunk (4 * (intChunk n).length + 8) n 0 [] (by omega) hn
    rw [List.append_nil] at h
    rw [h]
  · intro n _hp hn
    unfold decode
    have h := root_negint_chunk (4 * (negIntChunk n).length + 8) n 0 [] (by omega) hn
    rw [List.append_nil] at h
    rw [h]

set_option maxRecDepth 16384 in
/-- C5 counterexample: at `n = 2 ^ 63` decoding `"i" ++ decimal(n) ++ "e"`
yields `Int(-2^63)` (the wrapped accumulator), not `Int(n)` as the claim
states for every natural number. -/
theorem c5_counterexample :
    decode (intChunk (2 ^ 63)) = .ok (.int (-(2 ^ 63)))
    ∧ decode (intChunk (2 ^ 63)) ≠ .ok (.int (2 ^ 63)) := ⟨by decide, by decide⟩

/-- Witness for the amended C5 at `n = 12` and `n = 5`. -/
theorem c5_amended_witness :
    ((12 : Nat) < 2 ^ 63) ∧ ((0 : Nat) < 5 ∧ (5 : Nat) < 2 ^ 63)
    ∧ decode (intChunk 12) = .ok (.int 12)
    ∧ decode (negIntChunk 5) = .ok (.int (-(5 : Int))) :=
  ⟨by decide, ⟨by decide, by decide⟩, c5_amended.1 12 (by decide),
   c5_amended.2.1 5 (by decide) (by decide)⟩

/-! ### Substring lemmas and tracker classification (C7) -/


theorem stripPre_some : ∀ (pat s r : List Nat), stripPre pat s = some r ↔ s = pat ++ r := by
  intro pat
  induction pat with
  | nil => intro s r; simp [stripPre]
  | cons p ps ih =>
      intro s r
      cases s with
      | nil => simp [stripPre]
      | cons c cs =>
          simp only [stripPre]
          by_cases hc : c = p
          · rw [if_pos hc, ih cs r]
            subst hc
            simp
          · rw [if_neg hc]
            simp only [List.cons_append, List.cons.injEq]
            constructor
            · intro h; cases h
            · intro h; exact absurd h.1 hc

theorem hasPre_iff (pat s : List Nat) : hasPre pat s = true ↔ ∃ t, s = pat ++ t := by
  unfold hasPre
  rw [Option.isSome_iff_exists]
  constructor
  · rintro ⟨t, ht⟩; exact ⟨t, (stripPre_some pat s t).mp ht⟩
  · rintro ⟨t, ht⟩; exact ⟨t, (stripPre_some pat s t).mpr ht⟩

theorem findAfter_eq (pat s : List Nat) :
    findAfter pat s = match stripPre pat s with
      | some r => some r
      | none => match s with
        | [] => none
        | _ :: cs => findAfter pat cs := by
  cases s <;> rfl

theorem findAfter_some : ∀ (s pat r : List Nat),
    findAfter pat s = some r → ∃ pre, s = pre ++ pat ++ r := by
  intro s
  induction s with
  | nil =>
      intro pat r h
      rw [findAfter_eq] at h
      cases hsp : stripPre pat [] with
      | none => rw [hsp] at h; cases h
      | some rest =>
          rw [hsp] at h
          have hr : rest = r := by injection h
          subst hr
          exact ⟨[], by simpa using (stripPre_some pat [] rest).mp hsp⟩
  | cons c cs ih =>
      intro pat r h
      rw [findAfter_eq] at h
      cases hsp : stripPre pat (c :: cs) with
      | some rest =>
          rw [hsp] at h
          have hr : rest = r := by injection h
          subst hr
          exact ⟨[], by simpa using (stripPre_some pat (c :: cs) rest).mp hsp⟩
      | none =>
          rw [hsp] at h
          obtain ⟨pre, hpre⟩ := ih pat r h
          exact ⟨c :: pre, by simp [hpre]⟩

theorem findAfter_first : ∀ (pre s pat post : List Nat),
    s = pre ++ pat ++ post →
    (∀ pre2 post2, s = pre2 ++ pat ++ post2 → pre.length ≤ pre2.length) →
    findAfter pat s = some post := by
  intro pre
  induction pre with
  | nil =>
      intro s pat post h _hmin
      subst h
      rw [findAfter_eq]
      rw [(stripPre_some pat (([] : List Nat) ++ pat ++ post) post).mpr (by simp)]
  | cons c pre' ih =>
      intro s pat post h hmin
      subst h
      rw [findAfter_eq]
      cases hsp : stripPre pat ((c :: pre') ++ pat ++ post) with
      | some r =>
          have hocc := (stripPre_some pat _ r).mp hsp
          have := hmin [] r (by simpa using hocc)
          simp at this
      | none =>
          simp only [List.cons_append]
          apply ih (pre' ++ pat ++ post) pat post rfl
          intro pre2 post2 h2
          have := hmin (c :: pre2) post2 (by simp [h2])
          simpa using this

theorem occurs_subOccursB : ∀ (pre pat post s : List Nat),
    s = pre ++ pat ++ post → subOccursB pat s = true := by
  intro pre
  induction pre with
  | nil =>
      intro pat post s h
      subst h
      cases hps : pat ++ post with
      | nil =>
          obtain ⟨h1, h2⟩ := List.append_eq_nil.mp hps
          subst h1
          subst h2
          simp [subOccursB, hasPre, stripPre]
      | cons c cs =>
          rw [List.nil_append, hps]
          simp only [subOccursB, Bool.or_eq_true]
          left
          rw [hasPre_iff]
          exact ⟨post, hps ▸ rfl⟩
  | cons c pre' ih =>
      intro pat post s h
      subst h
      simp only [List.cons_append, subOccursB, Bool.or_eq_true]
      right
      exact ih pat post _ rfl

/-- C7: tracker address classification returns UDP holding everything after
the first occurrence of the substring `"udp://"` when that substring occurs
anywhere in the text; otherwise HTTP holding the text unchanged when the
text starts with `"http://"` or `"https://"`; otherwise Unknown holding the
text unchanged. -/
theorem c7_classification :
    (∀ s pre post : List Nat, s = pre ++ udpPat ++ post →
        (∀ pre2 post2, s = pre2 ++ udpPat ++ post2 → pre.length ≤ pre2.length) →
        trackerAddrFrom s = .udp post)
    ∧ (∀ s : List Nat, ¬ occursIn udpPat s →
        ((∃ t, s = httpPat ++ t) ∨ (∃ t, s = httpsPat ++ t)) →
        trackerAddrFrom s = .http s)
    ∧ (∀ s : List Nat, ¬ occursIn udpPat s →
        ¬(∃ t, s = httpPat ++ t) → ¬(∃ t, s = httpsPat ++ t) →
        trackerAddrFrom s = .unknown s) := by
  have hnone : ∀ s : List Nat, ¬ occursIn udpPat s → findAfter udpPat s = none := by
    intro s hocc
    cases hfa : findAfter udpPat s with
    | none => rfl
    | some r =>
        obtain ⟨pre, hpre⟩ := findAfter_some s udpPat r hfa
        exact absurd ⟨pre, r, hpre⟩ hocc
  refine ⟨?_, ?_, ?_⟩
  · intro s pre post h hmin
    unfold trackerAddrFrom
    rw [findAfter_first pre s udpPat post h hmin]
  · intro s hocc hpre
    unfold trackerAddrFrom
    rw [hnone s hocc]
    rw [if_pos]
    rw [Bool.or_eq_true, hasPre_iff, hasPre_iff]
    exact hpre
  · intro s hocc hp1 hp2
    unfold trackerAddrFrom
    rw [hnone s hocc]
    rw [if_neg]
    rw [Bool.or_eq_true, hasPre_iff, hasPre_iff]
    rintro (h | h)
    · exact hp1 h
    · exact hp2 h

/-- Witness for C7 on the three spec examples. -/
theorem c7_classification_witness :
    trackerAddrFrom (strBytes ("udp://tracker.example:6969"))
      = .udp (strBytes ("tracker.example:6969"))
    ∧ trackerAddrFrom (strBytes ("http://tracker.example"))
      = .http (strBytes ("http://tracker.example"))
    ∧ trackerAddrFrom (strBytes ("ftp://tracker.example"))
      = .unknown (strBytes ("ftp://tracker.example")) := by
  have hocc1 : ¬ occursIn udpPat (strBytes ("http://tracker.example")) := by
    intro h
    obtain ⟨pre, post, hpp⟩ := h
    have := occurs_subOccursB pre udpPat post _ hpp
    rw [show subOccursB udpPat (strBytes ("http://tracker.example")) = false from by decide]
      at this
    cases this
  have hocc2 : ¬ occursIn udpPat (strBytes ("ftp://tracker.example")) := by
    intro h
    obtain ⟨pre, post, hpp⟩ := h
    have := occurs_subOccursB pre udpPat post _ hpp
    rw [show subOccursB udpPat (strBytes ("ftp://tracker.example")) = false from by decide]
      at this
    cases this
  refine ⟨?_, ?_, ?_⟩
  · exact c7_classification.1 (strBytes ("udp://tracker.example:6969")) []
      (strBytes ("tracker.example:6969")) (by decide)
      (fun pre2 post2 _ => Nat.zero_le _)
  · exact c7_classification.2.1 (strBytes ("http://tracker.example")) hocc1
      (Or.inl ⟨strBytes ("tracker.example"), by decide⟩)
  · exact c7_classification.2.2 (strBytes ("ftp://tracker.example")) hocc2
      (fun h => by
        have h2 := (hasPre_iff httpPat (strBytes ("ftp://tracker.example"))).mpr h
        rw [show hasPre httpPat (strBytes ("ftp://tracker.example")) = false from by decide] at h2
        cases h2)
      (fun h => by
        have h2 := (hasPre_iff httpsPat (strBytes ("ftp://tracker.example"))).mpr h
        rw [show hasPre httpsPat (strBytes ("ftp://tracker.example")) = false from by decide] at h2
        cases h2)

/-! ### Announce-list tier priorities (C9) -/


theorem trackersInner_run (bsList : List Bencoding) (strs : List (List Nat))
    (idx : Nat) (acc : List (Nat × TrackerAddr))
    (h : List.Forall₂
      (fun b s => ∃ bytes, b = .byteString bytes ∧ utf8Decode bytes = some s) bsList strs) :
    trackersInner bsList idx acc
      = .ok (acc ++ strs.map (fun s => (idx % 256, trackerAddrFrom s))) := by
  induction h generalizing acc with
  | nil => simp [trackersInner]
  | @cons b s bsTl strsTl hbs htl ih =>
      obtain ⟨bytes, rfl, hdec⟩ := hbs
      have htf : trackerTryFrom (.byteString bytes) = .ok (trackerAddrFrom s) := by
        unfold trackerTryFrom extract_string extract_bytes
        dsimp only
        rw [hdec]
      simp only [trackersInner]
      rw [htf]
      dsimp only
      rw [ih (acc ++ [(idx % 256, trackerAddrFrom s)])]
      simp

theorem trackersTiers_run (tiers : List Bencoding) (tierStrs : List (List (List Nat)))
    (idx : Nat) (acc : List (Nat × TrackerAddr))
    (h : List.Forall₂ TierOK tiers tierStrs) :
    trackersTiers tiers idx acc = .ok (acc ++ specTrackersFrom idx tierStrs) := by
  induction h generalizing idx acc with
  | nil => simp [trackersTiers, specTrackersFrom]
  | @cons t strs tl strsTl htier htl ih =>
      obtain ⟨bsList, rfl, hf⟩ := htier
      simp only [trackersTiers]
      have hel : extract_list (Bencoding.list bsList) = .ok bsList := rfl
      rw [hel]
      dsimp only
      rw [trackersInner_run bsList strs idx acc hf]
      dsimp only
      rw [ih (idx + 1) (acc ++ strs.map (fun s => (idx % 256, trackerAddrFrom s)))]
      simp [specTrackersFrom]

set_option maxRecDepth 100000 in
/-- C9: the priority stored for every tracker of an announce-list tier is
the tier's 0-based index truncated to 8 bits (`index % 256`, from
`index as u8`), as `specTrackersFrom` records; consequently with more than
256 tiers distinct tiers share priorities and tier 256 gets priority 0
(the two closed conjuncts exhibit this at 257 tiers). -/
theorem c9_tier_priority_mod256 (m : List (List Nat × Bencoding)) (tiers : List Bencoding)
    (tierStrs : List (List (List Nat)))
    (h1 : lookupKV m alKey = some (.list tiers))
    (h2 : List.Forall₂ TierOK tiers tierStrs) :
    extract_trackers (.dict m) = .ok (specTrackersFrom 0 tierStrs)
    ∧ (specTrackersFrom 0 (List.replicate 257 [[117]]))[256]?
        = some (0, trackerAddrFrom [117])
    ∧ (specTrackersFrom 0 (List.replicate 257 [[117]]))[0]?
        = some (0, trackerAddrFrom [117]) := by
  refine ⟨?_, by decide, by decide⟩
  unfold extract_trackers
  have hk : extract_key (.dict m) alKey = .ok (.list tiers) := by simp [extract_key, h1]
  rw [hk]
  dsimp only
  have hel : extract_list (Bencoding.list tiers) = .ok tiers := rfl
  rw [hel]
  dsimp only
  rw [trackersTiers_run tiers tierStrs 0 [] h2]
  simp

/-- Witness for C9 at a concrete two-tier announce-list. -/
theorem c9_witness :
    extract_trackers (.dict [(alKey,
        .list [.list [.byteString (strBytes ("udp://a"))],
               .list [.byteString (strBytes ("http://b"))]])])
      = .ok [(0, .udp (strBytes ("a"))), (1, .http (strBytes ("http://b")))] := by
  have hf : List.Forall₂ TierOK
      [.list [.byteString (strBytes ("udp://a"))], .list [.byteString (strBytes ("http://b"))]]
      [[strBytes ("udp://a")], [strBytes ("http://b")]] := by
    refine List.Forall₂.cons ⟨[.byteString (strBytes ("udp://a"))], rfl, ?_⟩
      (List.Forall₂.cons ⟨[.byteString (strBytes ("http://b"))], rfl, ?_⟩ List.Forall₂.nil)
    · exact List.Forall₂.cons ⟨strBytes ("udp://a"), rfl, by decide⟩ List.Forall₂.nil
    · exact List.Forall₂.cons ⟨strBytes ("http://b"), rfl, by decide⟩ List.Forall₂.nil
  have h := (c9_tier_priority_mod256
    [(alKey, .list [.list [.byteString (strBytes ("udp://a"))],
                    .list [.byteString (strBytes ("http://b"))]])]
    [.list [.byteString (strBytes ("udp://a"))], .list [.byteString (strBytes ("http://b"))]]
    [[strBytes ("udp://a")], [strBytes ("http://b")]]
    (by decide) hf).1
  exact h.trans (by decide)

/-! ### The dictionary production (C8) -/


theorem decRep_ne_nil (n : Nat) : decRep n ≠ [] := by
  unfold decRep
  intro h
  exact absurd (List.map_eq_nil_iff.mp h) (digitsM_ne_nil n)

theorem strChunk_len (k : List Nat) : 2 ≤ (strChunk k).length := by
  unfold strChunk
  simp only [List.length_append, List.length_cons]
  have := decRep_ne_nil k.length
  have : 1 ≤ (decRep k.length).length := by
    cases h : decRep k.length with
    | nil => exact absurd h (decRep_ne_nil k.length)
    | cons a tl => simp
  omega

theorem bytestringP_chunk (k : List Nat) (p : Nat) (rest : List Nat)
    (hk : k.length < 2 ^ 63) (hp : p + (strChunk k).length < 2 ^ 64) :
    bytestringP ⟨strChunk k ++ rest, p⟩ = (.ok k, ⟨rest, p + (strChunk k).length⟩) := by
  have hshape : strChunk k ++ rest = decRep k.length ++ (58 :: (k ++ rest)) := by
    unfold strChunk; simp
  rw [hshape]
  unfold bytestringP
  rw [int_digits_run k.length p (58 :: (k ++ rest)) hk
    (by intro c hc; simp at hc; subst hc; decide)]
  dsimp only
  unfold expectB advance
  simp only [List.head?_cons, List.tail_cons, if_true]
  have htu : toUsize ((k.length : Nat) : Int) = k.length := by
    unfold toUsize
    rw [Int.emod_eq_of_lt (Int.natCast_nonneg _) (by exact_mod_cast Nat.lt_of_lt_of_le hk (by norm_num))]
    simp
  rw [htu]
  unfold takeL
  have hsck : (strChunk k).length = (decRep k.length).length + 1 + k.length := by
    unfold strChunk
    simp only [List.length_append, List.length_cons]
    omega
  rw [if_neg (by dsimp only; omega)]
  rw [if_neg (by dsimp only; simp only [List.length_append]; omega)]
  dsimp only
  rw [List.take_left, List.drop_left]
  have hpos : p + (decRep k.length).length + 1 + k.length = p + (strChunk k).length := by omega
  rw [hpos]

theorem dictLoopP_run : ∀ (pairs : List (List Nat × List Nat × Bencoding))
    (f p : Nat) (acc : List (List Nat × Bencoding)) (rest : List Nat),
    (∀ pr ∈ pairs, pr.1.length < 2 ^ 63) →
    (∀ pr ∈ pairs, ParsesVal pr.2.1 pr.2.2) →
    p + ((pairs.map pairChunk).flatten).length < 2 ^ 64 →
    1 + (pairs.map (fun pr => 1 + 4 * pr.2.1.length)).sum ≤ f →
    dictLoopP f ⟨(pairs.map pairChunk).flatten ++ 101 :: rest, p⟩ acc
      = (.ok (pairs.foldl (fun m pr => insertKV m pr.1 pr.2.2) acc),
         ⟨101 :: rest, p + ((pairs.map pairChunk).flatten).length⟩) := by
  intro pairs
  induction pairs with
  | nil =>
      intro f p acc rest _ _ _ hf
      obtain ⟨g, rfl⟩ : ∃ g, f = g + 1 := ⟨f - 1, by omega⟩
      simp only [List.map_nil, List.flatten_nil, List.nil_append, List.length_nil,
        Nat.add_zero, List.foldl_nil]
      rw [dictLoopP]
      have hbs : bytestringP ⟨101 :: rest, p⟩
          = (.error ⟨"Tried to parse integer without any valid digits"⟩, ⟨101 :: rest, p⟩) := by
        unfold bytestringP int_digits
        dsimp only
        rw [show as_digit 101 = none from by decide]
      rw [hbs]
  | cons pr tl ih =>
      intro f p acc rest hk hv hp hf
      have hsum0 : 0 ≤ (tl.map (fun pr => 1 + 4 * pr.2.1.length)).sum := Nat.zero_le _
      obtain ⟨g, rfl⟩ : ∃ g, f = g + 1 := ⟨f - 1, by simp at hf; omega⟩
      have hflat : ((pr :: tl).map pairChunk).flatten
          = pairChunk pr ++ (tl.map pairChunk).flatten := by
        simp
      have hpc : (pairChunk pr).length = (strChunk pr.1).length + pr.2.1.length := by
        unfold pairChunk; simp
      have hshape : ((pr :: tl).map pairChunk).flatten ++ 101 :: rest
          = strChunk pr.1 ++ (pr.2.1 ++ ((tl.map pairChunk).flatten ++ 101 :: rest)) := by
        rw [hflat]
        unfold pairChunk
        simp [List.append_assoc]
      rw [hshape]
      rw [dictLoopP]
      have hp1 : p + (strChunk pr.1).length < 2 ^ 64 := by
        rw [hflat] at hp
        simp only [List.length_append] at hp
        omega
      rw [bytestringP_chunk pr.1 p _ (hk pr (List.mem_cons_self pr tl)) hp1]
      dsimp only
      have hsumf : 1 + (1 + 4 * pr.2.1.length + (tl.map (fun pr => 1 + 4 * pr.2.1.length)).sum)
          ≤ g + 1 := by
        simp only [List.map_cons, List.sum_cons] at hf
        exact hf
      rw [hv pr (List.mem_cons_self pr tl) g (p + (strChunk pr.1).length)
        ((tl.map pairChunk).flatten ++ 101 :: rest) (by omega)]
      dsimp only
      rw [ih g (p + (strChunk pr.1).length + pr.2.1.length) (insertKV acc pr.1 pr.2.2) rest
        (fun x hx => hk x (List.mem_cons_of_mem pr hx))
        (fun x hx => hv x (List.mem_cons_of_mem pr hx))
        (by rw [hflat] at hp; simp only [List.length_append] at hp; omega)
        (by omega)]
      simp only [List.foldl_cons]
      have hposeq : p + (strChunk pr.1).length + pr.2.1.length
            + ((tl.map pairChunk).flatten).length
          = p + (((pr :: tl).map pairChunk).flatten).length := by
        rw [hflat]
        simp only [List.length_append]
        omega
      rw [hposeq]

theorem sumFuel_le (pairs : List (List Nat × List Nat × Bencoding)) :
    (pairs.map (fun pr => 1 + 4 * pr.2.1.length)).sum
      ≤ 4 * ((pairs.map pairChunk).flatten).length := by
  induction pairs with
  | nil => simp
  | cons pr tl ih =>
      simp only [List.map_cons, List.sum_cons, List.flatten_cons, List.length_append]
      have h2 : 2 ≤ (strChunk pr.1).length := strChunk_len pr.1
      have hpc : (pairChunk pr).length = (strChunk pr.1).length + pr.2.1.length := by
        unfold pairChunk; simp
      omega

theorem lookupKV_insertKV (m : List (List Nat × Bencoding)) (k : List Nat) (v : Bencoding)
    (k' : List Nat) :
    lookupKV (insertKV m k v) k' = if k = k' then some v else lookupKV m k' := by
  induction m with
  | nil => simp [insertKV, lookupKV]
  | cons e tl ih =>
      obtain ⟨k0, v0⟩ := e
      by_cases h0 : k0 = k
      · subst h0
        by_cases h1 : k0 = k'
        · simp [insertKV, lookupKV, h1]
        · simp [insertKV, lookupKV, h1]
      · by_cases h1 : k0 = k'
        · subst h1
          have h2 : insertKV ((k0, v0) :: tl) k v = (k0, v0) :: insertKV tl k v := by
            simp [insertKV, h0]
          rw [h2, if_neg (fun hc => h0 hc.symm)]
          simp [lookupKV]
        · simp [insertKV, lookupKV, h0, h1, ih]

theorem lastVal_cons (pr : List Nat × List Nat × Bencoding)
    (tl : List (List Nat × List Nat × Bencoding)) (k : List Nat) :
    lastVal (pr :: tl) k
      = match lastVal tl k with
        | some v => some v
        | none => if pr.1 = k then some pr.2.2 else none := by
  unfold lastVal
  simp only [List.reverse_cons, List.find?_append]
  cases hf : (tl.reverse.find? (fun pr => pr.1 == k)) with
  | some q => simp
  | none =>
      simp only [Option.none_or]
      by_cases hk : pr.1 = k
      · simp [List.find?_cons, hk]
      · simp [List.find?_cons, beq_iff_eq, hk]

theorem lookupKV_foldl_insert : ∀ (pairs : List (List Nat × List Nat × Bencoding))
    (m : List (List Nat × Bencoding)) (k : List Nat),
    lookupKV (pairs.foldl (fun m pr => insertKV m pr.1 pr.2.2) m) k
      = match lastVal pairs k with
        | some v => some v
        | none => lookupKV m k := by
  intro pairs
  induction pairs with
  | nil => intro m k; simp [lastVal]
  | cons pr tl ih =>
      intro m k
      simp only [List.foldl_cons]
      rw [ih (insertKV m pr.1 pr.2.2) k]
      rw [lastVal_cons]
      cases hl : lastVal tl k with
      | some v => rfl
      | none =>
          dsimp only
          rw [lookupKV_insertKV]
          by_cases hk : pr.1 = k
          · simp [hk]
          · simp [hk]

/-- C8: decoding the dictionary production `'d' (byte-string value)* 'e'`
built from any sequence of key/value pairs (each value an arbitrary chunk
accepted by the `value` parser, each key a byte-string production) yields
`Dict` of exactly those pairs inserted in input order with map semantics;
zero pairs are allowed (`decode("de") = Dict({})`); and for every key the
binding in the resulting map is the value of the last (latest) occurrence
of that key in the input. -/
theorem c8_dict_production (pairs : List (List Nat × List Nat × Bencoding))
    (hk : ∀ pr ∈ pairs, pr.1.length < 2 ^ 63)
    (hv : ∀ pr ∈ pairs, ParsesVal pr.2.1 pr.2.2)
    (hlen : (dictInput pairs).length < 2 ^ 64) :
    decode (dictInput pairs) = .ok (.dict (dictVal pairs))
    ∧ decode (strBytes ("de")) = .ok (.dict [])
    ∧ ∀ k, lookupKV (dictVal pairs) k = lastVal pairs k := by
  refine ⟨?_, by decide, ?_⟩
  · have hdl : (dictInput pairs).length = ((pairs.map pairChunk).flatten).length + 2 := by
      unfold dictInput; simp
    have hlen2 : ((pairs.map pairChunk).flatten).length + 2 < 2 ^ 64 := hdl ▸ hlen
    have hsum := sumFuel_le pairs
    unfold decode
    have hshape : dictInput pairs = 100 :: ((pairs.map pairChunk).flatten ++ 101 :: []) := rfl
    rw [hshape]
    rw [show (100 :: ((pairs.map pairChunk).flatten ++ [101])).length
        = ((pairs.map pairChunk).flatten).length + 2 from by simp]
    rw [show 4 * (((pairs.map pairChunk).flatten).length + 2) + 8
        = (4 * ((pairs.map pairChunk).flatten).length + 15) + 1 from by omega]
    rw [root]
    simp only [List.head?_cons]
    show (dictP (4 * ((pairs.map pairChunk).flatten).length + 15)
      ⟨(pairs.map pairChunk).flatten ++ 101 :: [], 1⟩).1 = _
    rw [show 4 * ((pairs.map pairChunk).flatten).length + 15
        = (4 * ((pairs.map pairChunk).flatten).length + 14) + 1 from by omega]
    rw [dictP]
    rw [dictLoopP_run pairs (4 * ((pairs.map pairChunk).flatten).length + 14) 1 [] []
      hk hv (by omega) (by omega)]
    dsimp only
    unfold expectB advance
    simp only [List.head?_cons, List.tail_cons, if_true]
    rfl
  · intro k
    unfold dictVal
    rw [lookupKV_foldl_insert pairs [] k]
    cases lastVal pairs k <;> simp [lookupKV]

/-- Witness for C8 on `"d1:Ai1e1:Ai2ee"`: the duplicate key `"A"` maps to
the later value `2`. -/
theorem c8_dict_production_witness :
    decode (dictInput [([65], [105, 49, 101], .int 1), ([65], [105, 50, 101], .int 2)])
      = .ok (.dict [([65], .int 2)])
    ∧ lookupKV (dictVal [([65], [105, 49, 101], .int 1), ([65], [105, 50, 101], .int 2)]) [65]
      = some (.int 2) := by
  have hv : ∀ pr ∈ [(([65] : List Nat), ([105, 49, 101] : List Nat), Bencoding.int 1),
      ([65], [105, 50, 101], Bencoding.int 2)], ParsesVal pr.2.1 pr.2.2 := by
    intro pr hpr
    simp only [List.mem_cons, List.not_mem_nil, or_false] at hpr
    rcases hpr with rfl | rfl
    · intro f p rest hf
      have h := root_int_chunk f 1 p rest (by simp at hf; omega) (by norm_num)
      rw [show intChunk 1 = [105, 49, 101] from by decide] at h
      simpa using h
    · intro f p rest hf
      have h := root_int_chunk f 2 p rest (by simp at hf; omega) (by norm_num)
      rw [show intChunk 2 = [105, 50, 101] from by decide] at h
      simpa using h
  have H := c8_dict_production [([65], [105, 49, 101], .int 1), ([65], [105, 50, 101], .int 2)]
    (by decide) hv (by decide)
  refine ⟨H.1.trans (by decide), ?_⟩
  have h2 := H.2.2 [65]
  rw [h2]
  decide

end Typhoon
